import Mathlib

/-!
Verification development for the event-provisioning script `src/local/run.py`.

The script's core logic consists of:
* an identifier allocator (module-level `kata_id`, `kumite_id`, `team_id`,
  `coach_id`, `event_id`, lines 10, 26-29),
* the `adjust_ids` remapping function (lines 70-97), and
* the S3 wait-then-publish loop (lines 143-167).

We shallow-embed these pieces.  Python dictionaries are modelled as
association lists where a later assignment is prepended (so `find?` from
the front realises "last assignment wins").  In-place mutation with
exceptions is modelled by returning the final observable state of the
document together with an optional error: on an error the already-processed
prefix is mutated and the rest is left as it was, exactly as the caller of
the Python function observes after the exception propagates.
-/

namespace Run

/-- The allocator's output: one fresh identifier per fixed activity name
(script lines 26-29, each `"#" + str(uuid.uuid4())`). -/
structure Ids where
  kataId : String
  kumiteId : String
  teamId : String
  coachId : String
deriving DecidableEq, Repr

/-- An entry of `event.activities`: an activity definition with its
identifier, its name, and all remaining fields (opaque). -/
structure ActivityDef where
  activityId : String
  name : String
  rest : String
deriving DecidableEq, Repr

/-- An entry of a participant's `activities` list: a reference record with
its `activity-id` and all remaining fields (opaque). -/
structure ActRef where
  activityId : String
  rest : String
deriving DecidableEq, Repr

/-- A participant record: it optionally has an `activities` key, and all
remaining fields are opaque. -/
structure Participant where
  activities : Option (List ActRef)
  rest : String
deriving DecidableEq, Repr

/-- A category record with its `activity-id` and remaining fields. -/
structure Category where
  activityId : String
  rest : String
deriving DecidableEq, Repr

/-- The aggregate document: `event.activities`, `attrs.participants`,
`attrs.categories`, plus opaque remainders of `event`, `attrs` and of the
top level. -/
structure Doc where
  activities : List ActivityDef
  eventRest : String
  participants : List Participant
  categories : List Category
  attrsRest : String
  rest : String
deriving DecidableEq, Repr

/-- Errors the Python function can raise: reading the unbound local
`new_activity_id` (first definition has no matching name branch), or a
failed dictionary lookup `activity_id_map[old]`. -/
inductive AdjustError where
  | unboundLocal
  | keyError (missing : String)
deriving DecidableEq, Repr

/-- Python dict assignment `m[k] = v`, modelled by prepending. -/
def dictInsert (m : List (String × String)) (k v : String) :
    List (String × String) :=
  (k, v) :: m

/-- Python dict lookup `m[k]` (as an `Option`; `none` is the `KeyError`
case).  Because assignments are prepended, the first hit is the most
recent assignment. -/
def dictGet (m : List (String × String)) (k : String) : Option String :=
  (m.find? (fun p => p.1 = k)).map (fun p => p.2)

/-- The sequential `if` chain of lines 79-86: each test overwrites the
local `new_activity_id` when its name matches, otherwise the previous
value (possibly from an earlier loop iteration, possibly unbound) is
kept. -/
def newIdFor (ids : Ids) (nm : String) (cur : Option String) :
    Option String :=
  let c1 := if nm = "Kata" then some ids.kataId else cur
  let c2 := if nm = "Kumite" then some ids.kumiteId else c1
  let c3 := if nm = "Team Kata" then some ids.teamId else c2
  if nm = "Coach" then some ids.coachId else c3

/-- First pass (lines 76-88): walk the definitions, carrying the local
variable `new_activity_id` (`cur`) and the growing `activity_id_map`
(`m`).  Returns the observable list of definitions, the final map, and an
error if the local was read while unbound. -/
def runPass1 (ids : Ids) (cur : Option String)
    (m : List (String × String)) :
    List ActivityDef →
      List ActivityDef × List (String × String) × Option AdjustError
  | [] => ([], m, none)
  | a :: rest =>
    match newIdFor ids a.name cur with
    | none => (a :: rest, m, some .unboundLocal)
    | some nid =>
      let r := runPass1 ids (some nid) (dictInsert m a.activityId nid) rest
      ({ a with activityId := nid } :: r.1, r.2.1, r.2.2)

/-- Rewrite one list of activity references (inner loop of lines 93-94);
stops at the first `KeyError`, leaving that entry and the following ones
untouched. -/
def updRefs (m : List (String × String)) :
    List ActRef → List ActRef × Option AdjustError
  | [] => ([], none)
  | r :: rest =>
    match dictGet m r.activityId with
    | none => (r :: rest, some (.keyError r.activityId))
    | some nid =>
      let p := updRefs m rest
      ({ r with activityId := nid } :: p.1, p.2)

/-- Second pass (lines 91-94): participants that have an `activities` key
get their references rewritten; the others are untouched. -/
def runPass2 (m : List (String × String)) :
    List Participant → List Participant × Option AdjustError
  | [] => ([], none)
  | p :: rest =>
    match p.activities with
    | none =>
      let q := runPass2 m rest
      (p :: q.1, q.2)
    | some refs =>
      let u := updRefs m refs
      match u.2 with
      | some err => ({ p with activities := some u.1 } :: rest, some err)
      | none =>
        let q := runPass2 m rest
        ({ p with activities := some u.1 } :: q.1, q.2)

/-- Third pass (lines 96-97): rewrite each category's `activity-id`. -/
def runPass3 (m : List (String × String)) :
    List Category → List Category × Option AdjustError
  | [] => ([], none)
  | c :: rest =>
    match dictGet m c.activityId with
    | none => (c :: rest, some (.keyError c.activityId))
    | some nid =>
      let q := runPass3 m rest
      ({ c with activityId := nid } :: q.1, q.2)

/-- The whole of `adjust_ids` (lines 70-97): the three passes chained,
returning the document as the caller observes it after the call (or after
the exception) together with the error, if any. -/
def adjust_ids (ids : Ids) (doc : Doc) : Doc × Option AdjustError :=
  let r1 := runPass1 ids none [] doc.activities
  match r1.2.2 with
  | some err => ({ doc with activities := r1.1 }, some err)
  | none =>
    let r2 := runPass2 r1.2.1 doc.participants
    match r2.2 with
    | some err =>
      ({ doc with activities := r1.1, participants := r2.1 }, some err)
    | none =>
      let r3 := runPass3 r1.2.1 doc.categories
      ({ doc with activities := r1.1, participants := r2.1,
                  categories := r3.1 }, r3.2)

/-- The four fixed activity names of the script. -/
def fixedNames : List String := ["Kata", "Kumite", "Team Kata", "Coach"]

/-- The identifier the if-chain assigns for a fixed name (the value the
chain computes whenever the name is one of the four, independent of the
carried local). -/
def specNewId (ids : Ids) (nm : String) : String :=
  if nm = "Coach" then ids.coachId
  else if nm = "Team Kata" then ids.teamId
  else if nm = "Kumite" then ids.kumiteId
  else ids.kataId

/-! ### The wait-then-publish loop (lines 143-167)

The store is modelled as a function from the index of the existence check
(`head_object` call) to its result: success, a 404/NoSuchKey `ClientError`,
or any other `ClientError`.  The loop body sleeps and adds
`wait_interval_seconds` to `time_waited` on each miss; time is therefore
tracked exactly by the accumulator and needs no real-time model. -/

/-- Result of one `head_object` existence check: the object exists, a
404/NoSuchKey error (object absent), or any other `ClientError`. -/
inductive CheckResult where
  | found
  | notFound
  | otherError
deriving DecidableEq, Repr

/-- How the wait loop ended: `break` on a successful check, fall-through
timeout (`while`/`else`), or a re-raised non-404 error. -/
inductive Outcome where
  | found (elapsed : Nat)
  | timedOut
  | fatal
deriving DecidableEq, Repr

/-- The `while time_waited < max_wait_seconds` loop.  `t` is
`time_waited`, `n` the number of existence checks performed so far.
Returns the total number of checks and the outcome.  The source fixes
`interval = 10`, so the guard's `0 < interval` conjunct (needed for
termination; with `interval = 0` the Python loop never terminates) is
always satisfied in the embedded runs. -/
def waitLoop (check : Nat → CheckResult) (interval maxWait t n : Nat) :
    Nat × Outcome :=
  if h : 0 < interval ∧ t < maxWait then
    match check n with
    | .found => (n + 1, .found t)
    | .notFound => waitLoop check interval maxWait (t + interval) (n + 1)
    | .otherError => (n + 1, .fatal)
  else (n, .timedOut)
termination_by maxWait - t
decreasing_by omega

/-- Observable counts of a run of the wait-then-publish fragment. -/
structure RunResult where
  checks : Nat
  puts : Nat
  raised : Bool
deriving DecidableEq, Repr

/-- Lines 143-167 as a whole: run the wait loop from `time_waited = 0`;
on a `found` break or on the `else` timeout branch, `put_object` runs
exactly once and nothing is raised; on any other `ClientError` the
exception is re-raised and `put_object` is never reached. -/
def awaitThenPublish (check : Nat → CheckResult) (interval maxWait : Nat) :
    RunResult :=
  let r := waitLoop check interval maxWait 0 0
  match r.2 with
  | .fatal => ⟨r.1, 0, true⟩
  | _ => ⟨r.1, 1, false⟩

/-! ### Script-level sequencing and the command payload (lines 10-68) -/

/-- The observable top-level steps of the script, in program order. -/
inductive Step where
  | genEventId
  | genKataId
  | genKumiteId
  | genTeamId
  | genCoachId
  | buildCommand
  | submitCommand
  | loadTemplate
  | adjustIdsStep
  | waitForObject
  | publish
deriving DecidableEq, Repr

/-- Program order of the script: lines 10 and 26-29 (generation), 31-68
(payload construction), 100 (POST), 113-114 (template load), 131
(`adjust_ids`), 148-165 (wait loop), 167 (`put_object`). -/
def scriptOrder : List Step :=
  [.genEventId, .genKataId, .genKumiteId, .genTeamId, .genCoachId,
   .buildCommand, .submitCommand, .loadTemplate, .adjustIdsStep,
   .waitForObject, .publish]

/-- The identifier-generation steps (lines 10, 26-29). -/
def idGenSteps : List Step :=
  [.genEventId, .genKataId, .genKumiteId, .genTeamId, .genCoachId]

/-- The `(activity-id, name)` pairs embedded in the outbound command
payload (lines 43-61). -/
def commandActivities (ids : Ids) : List (String × String) :=
  [(ids.kataId, "Kata"), (ids.kumiteId, "Kumite"),
   (ids.teamId, "Team Kata"), (ids.coachId, "Coach")]

/-- Look up the activity-id the command payload carries for a name. -/
def commandIdForName (ids : Ids) (nm : String) : Option String :=
  (commandActivities ids).find? (fun p => p.2 = nm) |>.map (fun p => p.1)

/-- The event identifier as embedded in the command (line 38:
`"event-id": f"#{event_id}"`). -/
def commandEventId (eventId : String) : String := "#" ++ eventId

/-- The `id` written into the published document (line 116:
`sample_data['id'] = "#" + event_id`). -/
def publishedDocId (eventId : String) : String := "#" ++ eventId

/-! ### Closed forms of the three passes (used to state and prove the
claims; each is shown equal to the corresponding pass under the
appropriate hypotheses) -/

/-- What pass 1 does to one definition when every name is fixed. -/
def updDef (ids : Ids) (d : ActivityDef) : ActivityDef :=
  { d with activityId := specNewId ids d.name }

/-- The `activity_id_map` built by pass 1 when every name is fixed, as an
association list (most recent assignment first). -/
def pass1Entries (ids : Ids) (defs : List ActivityDef) :
    List (String × String) :=
  (defs.map (fun d => (d.activityId, specNewId ids d.name))).reverse

/-- What passes 2 and 3 do to one reference that resolves in the map. -/
def updRef (m : List (String × String)) (r : ActRef) : ActRef :=
  { r with activityId := (dictGet m r.activityId).getD r.activityId }

/-- What pass 2 does to one participant when all its references resolve. -/
def updPart (m : List (String × String)) (p : Participant) : Participant :=
  match p.activities with
  | none => p
  | some refs => { p with activities := some (refs.map (updRef m)) }

/-- What pass 3 does to one category when its reference resolves. -/
def updCat (m : List (String × String)) (c : Category) : Category :=
  { c with activityId := (dictGet m c.activityId).getD c.activityId }

/-- Well-formedness of names: every definition carries one of the four
fixed names. -/
def namesFixed (doc : Doc) : Prop :=
  ∀ d ∈ doc.activities, d.name ∈ fixedNames

/-- Exactly one definition per fixed name. -/
def oneDefPerName (doc : Doc) : Prop :=
  ∀ nm ∈ fixedNames,
    (doc.activities.filter (fun d => d.name = nm)).length = 1

/-- Every participant reference resolves to some definition's original
identifier (participants without an `activities` key contribute no
references). -/
def participantRefsResolve (doc : Doc) : Prop :=
  ∀ p ∈ doc.participants, ∀ r ∈ p.activities.getD [],
    ∃ d ∈ doc.activities, d.activityId = r.activityId

/-- Every category reference resolves to some definition's original
identifier. -/
def categoryRefsResolve (doc : Doc) : Prop :=
  ∀ c ∈ doc.categories,
    ∃ d ∈ doc.activities, d.activityId = c.activityId

instance (doc : Doc) : Decidable (namesFixed doc) := by
  unfold namesFixed; infer_instance

instance (doc : Doc) : Decidable (oneDefPerName doc) := by
  unfold oneDefPerName; infer_instance

instance (doc : Doc) : Decidable (participantRefsResolve doc) := by
  unfold participantRefsResolve; infer_instance

instance (doc : Doc) : Decidable (categoryRefsResolve doc) := by
  unfold categoryRefsResolve; infer_instance

/-- A concrete allocator output used in witnesses. -/
def idsA : Ids := ⟨"N1", "N2", "N3", "N4"⟩

/-- The spec's end-to-end scenario as a concrete document: four fixed
definitions with original identifiers A1..A4, a participant referencing
A2, a participant without an `activities` key, a category referencing
A1. -/
def docA : Doc :=
  { activities := [⟨"A1", "Kata", "d1"⟩, ⟨"A2", "Kumite", "d2"⟩,
      ⟨"A3", "Team Kata", "d3"⟩, ⟨"A4", "Coach", "d4"⟩],
    eventRest := "ev",
    participants := [⟨some [⟨"A2", "r1"⟩], "p1"⟩, ⟨none, "p2"⟩],
    categories := [⟨"A1", "c1"⟩],
    attrsRest := "at", rest := "tp" }

/-- `docA` with the definitions, participants and categories lists
reordered (for the iteration-order claim). -/
def docAperm : Doc :=
  { activities := [⟨"A2", "Kumite", "d2"⟩, ⟨"A1", "Kata", "d1"⟩,
      ⟨"A4", "Coach", "d4"⟩, ⟨"A3", "Team Kata", "d3"⟩],
    eventRest := "ev",
    participants := [⟨none, "p2"⟩, ⟨some [⟨"A2", "r1"⟩], "p1"⟩],
    categories := [⟨"A1", "c1"⟩],
    attrsRest := "at", rest := "tp" }

/-- A document with two definitions named "Kata" (duplicate fixed
name). -/
def docDup : Doc :=
  { activities := [⟨"A1", "Kata", "d1"⟩, ⟨"A2", "Kata", "d2"⟩],
    eventRest := "ev",
    participants := [⟨some [⟨"A1", "r1"⟩], "p1"⟩],
    categories := [⟨"A2", "c1"⟩],
    attrsRest := "at", rest := "tp" }

/-- A document whose only participant references an identifier "X" that
matches no definition. -/
def docDangling : Doc :=
  { activities := [⟨"A1", "Kata", "d1"⟩],
    eventRest := "ev",
    participants := [⟨some [⟨"X", "r1"⟩], "p1"⟩],
    categories := [],
    attrsRest := "at", rest := "tp" }

/-- A document whose second definition's name "Archery" is none of the
four fixed names. -/
def docStale : Doc :=
  { activities := [⟨"A1", "Kata", "d1"⟩, ⟨"A2", "Archery", "d2"⟩],
    eventRest := "ev", participants := [], categories := [],
    attrsRest := "at", rest := "tp" }

/-- A document whose first definition's name is none of the four fixed
names. -/
def docUnbound : Doc :=
  { activities := [⟨"A2", "Archery", "d2"⟩],
    eventRest := "ev", participants := [], categories := [],
    attrsRest := "at", rest := "tp" }

/-! ### Lemmas about pass 1 -/

lemma newIdFor_fixed (ids : Ids) {nm : String} (h : nm ∈ fixedNames)
    (cur : Option String) :
    newIdFor ids nm cur = some (specNewId ids nm) := by
  simp only [fixedNames, List.mem_cons, List.not_mem_nil, or_false] at h
  rcases h with h | h | h | h <;> subst h <;>
    simp [newIdFor, specNewId]

lemma runPass1_fixed (ids : Ids) {defs : List ActivityDef}
    (h : ∀ d ∈ defs, d.name ∈ fixedNames) :
    ∀ cur m, runPass1 ids cur m defs =
      (defs.map (updDef ids),
       (defs.map (fun d => (d.activityId, specNewId ids d.name))).reverse
         ++ m,
       none) := by
  induction defs with
  | nil => intro cur m; simp [runPass1]
  | cons a rest ih =>
    intro cur m
    have ha : a.name ∈ fixedNames := h a (by simp)
    have hrest : ∀ d ∈ rest, d.name ∈ fixedNames := fun d hd =>
      h d (by simp [hd])
    simp only [runPass1, newIdFor_fixed ids ha cur, ih hrest, dictInsert,
      updDef, List.map_cons, List.reverse_cons, List.append_assoc,
      List.cons_append, List.nil_append]

lemma pass1Map_eq (ids : Ids) {defs : List ActivityDef}
    (h : ∀ d ∈ defs, d.name ∈ fixedNames) :
    runPass1 ids none [] defs =
      (defs.map (updDef ids), pass1Entries ids defs, none) := by
  simpa [pass1Entries] using runPass1_fixed ids h none []

lemma dictGet_eq_none_iff (m : List (String × String)) (k : String) :
    dictGet m k = none ↔ ∀ p ∈ m, p.1 ≠ k := by
  simp [dictGet, List.find?_eq_none]

lemma dictGet_pass1_none_iff (ids : Ids) (defs : List ActivityDef)
    (k : String) :
    dictGet (pass1Entries ids defs) k = none ↔
      ∀ d ∈ defs, d.activityId ≠ k := by
  rw [dictGet_eq_none_iff]
  constructor
  · intro h d hd
    exact h (d.activityId, specNewId ids d.name)
      (by simp [pass1Entries]; exact ⟨d, hd, rfl, rfl⟩)
  · intro h p hp
    simp only [pass1Entries, List.mem_reverse, List.mem_map] at hp
    obtain ⟨d, hd, rfl⟩ := hp
    exact h d hd

lemma dictGet_pass1_mem (ids : Ids) {defs : List ActivityDef} {k : String}
    (h : ∃ d ∈ defs, d.activityId = k) :
    ∃ d ∈ defs, d.activityId = k ∧
      dictGet (pass1Entries ids defs) k = some (specNewId ids d.name) := by
  cases hf : (pass1Entries ids defs).find? (fun p => p.1 = k) with
  | none =>
    exfalso
    obtain ⟨d, hd, hk⟩ := h
    have : dictGet (pass1Entries ids defs) k = none := by
      simp [dictGet, hf]
    exact (dictGet_pass1_none_iff ids defs k).mp this d hd hk
  | some p =>
    have hmem : p ∈ pass1Entries ids defs := List.mem_of_find?_eq_some hf
    have hpk : p.1 = k := by
      have := List.find?_some hf
      simpa using this
    simp only [pass1Entries, List.mem_reverse, List.mem_map] at hmem
    obtain ⟨d, hd, rfl⟩ := hmem
    exact ⟨d, hd, hpk, by simp [dictGet, hf]⟩

lemma dictGet_pass1_isSome (ids : Ids) {defs : List ActivityDef}
    {k : String} (h : ∃ d ∈ defs, d.activityId = k) :
    (dictGet (pass1Entries ids defs) k).isSome := by
  obtain ⟨d, _, _, hv⟩ := dictGet_pass1_mem ids h
  simp [hv]

lemma dictGet_pass1_nodup (ids : Ids) {defs : List ActivityDef}
    (hnd : (defs.map (fun d => d.activityId)).Nodup)
    {d : ActivityDef} (hd : d ∈ defs) :
    dictGet (pass1Entries ids defs) d.activityId =
      some (specNewId ids d.name) := by
  obtain ⟨d', hd', hk, hv⟩ :=
    dictGet_pass1_mem ids ⟨d, hd, rfl⟩
  have : d' = d := List.inj_on_of_nodup_map hnd hd' hd hk
  subst this
  exact hv

/-! ### Lemmas about passes 2 and 3 -/

lemma updRefs_ok (m : List (String × String)) {refs : List ActRef}
    (h : ∀ r ∈ refs, (dictGet m r.activityId).isSome) :
    updRefs m refs = (refs.map (updRef m), none) := by
  induction refs with
  | nil => simp [updRefs]
  | cons r rest ih =>
    have hr := h r (by simp)
    cases hv : dictGet m r.activityId with
    | none => simp [hv] at hr
    | some nid =>
      have := ih (fun x hx => h x (by simp [hx]))
      simp [updRefs, hv, this, updRef]

lemma updRefs_err (m : List (String × String)) {refs : List ActRef}
    {e : AdjustError} (h : (updRefs m refs).2 = some e) :
    ∃ k, e = .keyError k ∧ dictGet m k = none ∧
      ∃ r ∈ refs, r.activityId = k := by
  induction refs with
  | nil => simp [updRefs] at h
  | cons r rest ih =>
    cases hv : dictGet m r.activityId with
    | none =>
      simp only [updRefs, hv] at h
      exact ⟨r.activityId, by simpa using h.symm, hv, r, by simp⟩
    | some nid =>
      simp only [updRefs, hv] at h
      obtain ⟨k, hk, hn, x, hx, hxk⟩ := ih h
      exact ⟨k, hk, hn, x, by simp [hx], hxk⟩

lemma runPass2_ok (m : List (String × String)) {parts : List Participant}
    (h : ∀ p ∈ parts, ∀ r ∈ p.activities.getD [],
      (dictGet m r.activityId).isSome) :
    runPass2 m parts = (parts.map (updPart m), none) := by
  induction parts with
  | nil => simp [runPass2]
  | cons p rest ih =>
    have hrest := ih (fun x hx => h x (by simp [hx]))
    cases hp : p.activities with
    | none => simp [runPass2, hp, hrest, updPart]
    | some refs =>
      have hrefs : ∀ r ∈ refs, (dictGet m r.activityId).isSome := by
        intro r hr
        exact h p (by simp) r (by simp [hp, hr])
      simp [runPass2, hp, updRefs_ok m hrefs, hrest, updPart]

lemma runPass2_err (m : List (String × String)) {parts : List Participant}
    {e : AdjustError} (h : (runPass2 m parts).2 = some e) :
    ∃ k, e = .keyError k ∧ dictGet m k = none ∧
      ∃ p ∈ parts, ∃ r ∈ p.activities.getD [], r.activityId = k := by
  induction parts with
  | nil => simp [runPass2] at h
  | cons p rest ih =>
    cases hp : p.activities with
    | none =>
      simp only [runPass2, hp] at h
      obtain ⟨k, hk, hn, x, hx, hr⟩ := ih h
      exact ⟨k, hk, hn, x, by simp [hx], hr⟩
    | some refs =>
      cases he : (updRefs m refs).2 with
      | some err =>
        simp only [runPass2, hp, he] at h
        obtain ⟨k, hk, hn, r, hr, hrk⟩ := updRefs_err m he
        have heq : err = e := by simpa using h
        exact ⟨k, heq ▸ hk, hn, p, by simp, r, by simp [hp, hr], hrk⟩
      | none =>
        simp only [runPass2, hp, he] at h
        obtain ⟨k, hk, hn, x, hx, hr⟩ := ih h
        exact ⟨k, hk, hn, x, by simp [hx], hr⟩

lemma runPass3_ok (m : List (String × String)) {cats : List Category}
    (h : ∀ c ∈ cats, (dictGet m c.activityId).isSome) :
    runPass3 m cats = (cats.map (updCat m), none) := by
  induction cats with
  | nil => simp [runPass3]
  | cons c rest ih =>
    have hc := h c (by simp)
    cases hv : dictGet m c.activityId with
    | none => simp [hv] at hc
    | some nid =>
      have := ih (fun x hx => h x (by simp [hx]))
      simp [runPass3, hv, this, updCat]

lemma runPass3_err (m : List (String × String)) {cats : List Category}
    {e : AdjustError} (h : (runPass3 m cats).2 = some e) :
    ∃ k, e = .keyError k ∧ dictGet m k = none ∧
      ∃ c ∈ cats, c.activityId = k := by
  induction cats with
  | nil => simp [runPass3] at h
  | cons c rest ih =>
    cases hv : dictGet m c.activityId with
    | none =>
      simp only [runPass3, hv] at h
      exact ⟨c.activityId, by simpa using h.symm, hv, c, by simp⟩
    | some nid =>
      simp only [runPass3, hv] at h
      obtain ⟨k, hk, hn, x, hx, hxk⟩ := ih h
      exact ⟨k, hk, hn, x, by simp [hx], hxk⟩

/-- The main success closed form of `adjust_ids`: with fixed names and
all references resolving, no error is raised and each component is mapped
elementwise. -/
lemma adjust_ids_ok (ids : Ids) {doc : Doc} (hn : namesFixed doc)
    (hp : participantRefsResolve doc) (hc : categoryRefsResolve doc) :
    adjust_ids ids doc =
      ({ doc with
          activities := doc.activities.map (updDef ids),
          participants := doc.participants.map
            (updPart (pass1Entries ids doc.activities)),
          categories := doc.categories.map
            (updCat (pass1Entries ids doc.activities)) }, none) := by
  have h1 := pass1Map_eq ids hn
  have h2 : runPass2 (pass1Entries ids doc.activities) doc.participants =
      (doc.participants.map (updPart (pass1Entries ids doc.activities)),
       none) :=
    runPass2_ok _ (fun p hpmem r hr =>
      dictGet_pass1_isSome ids (hp p hpmem r hr))
  have h3 : runPass3 (pass1Entries ids doc.activities) doc.categories =
      (doc.categories.map (updCat (pass1Entries ids doc.activities)),
       none) :=
    runPass3_ok _ (fun c hcmem => dictGet_pass1_isSome ids (hc c hcmem))
  simp [adjust_ids, h1, h2, h3]

/-! ### Frame lemmas: the passes only ever touch `activity-id` fields,
on error paths included -/

lemma runPass1_frame (ids : Ids) (defs : List ActivityDef) :
    ∀ cur m, List.Forall₂ (fun d d' => d'.name = d.name ∧ d'.rest = d.rest)
      defs (runPass1 ids cur m defs).1 := by
  induction defs with
  | nil => intro cur m; simp [runPass1]
  | cons a rest ih =>
    intro cur m
    cases hv : newIdFor ids a.name cur with
    | none =>
      simp only [runPass1, hv]
      exact List.Forall₂.cons ⟨rfl, rfl⟩
        (List.forall₂_same.mpr (fun x _ => ⟨rfl, rfl⟩))
    | some nid =>
      simp only [runPass1, hv]
      exact List.Forall₂.cons ⟨rfl, rfl⟩ (ih (some nid) _)

lemma updRefs_frame (m : List (String × String)) (refs : List ActRef) :
    List.Forall₂ (fun r r' => r'.rest = r.rest) refs (updRefs m refs).1 := by
  induction refs with
  | nil => simp [updRefs]
  | cons r rest ih =>
    cases hv : dictGet m r.activityId with
    | none =>
      simp only [updRefs, hv]
      exact List.Forall₂.cons rfl
        (List.forall₂_same.mpr (fun x _ => rfl))
    | some nid =>
      simp only [updRefs, hv]
      exact List.Forall₂.cons rfl ih

lemma runPass2_frame (m : List (String × String))
    (parts : List Participant) :
    List.Forall₂ (fun p p' => p'.rest = p.rest ∧
        (p.activities = none → p' = p) ∧
        (∀ refs, p.activities = some refs → ∃ refs',
          p'.activities = some refs' ∧
          List.Forall₂ (fun r r' => r'.rest = r.rest) refs refs'))
      parts (runPass2 m parts).1 := by
  induction parts with
  | nil => simp [runPass2]
  | cons p rest ih =>
    cases hp : p.activities with
    | none =>
      simp only [runPass2, hp]
      refine List.Forall₂.cons ⟨rfl, fun _ => rfl, ?_⟩ ih
      intro refs hrefs
      simp [hp] at hrefs
    | some refs =>
      cases he : (updRefs m refs).2 with
      | some err =>
        simp only [runPass2, hp, he]
        refine List.Forall₂.cons
          ⟨rfl, by simp [hp], ?_⟩
          (List.forall₂_same.mpr (fun x _ =>
            ⟨rfl, fun _ => rfl, fun rs hrs => ⟨rs, hrs,
              List.forall₂_same.mpr (fun _ _ => rfl)⟩⟩))
        intro rs hrs
        rw [hp] at hrs
        cases hrs
        exact ⟨(updRefs m refs).1, rfl, updRefs_frame m refs⟩
      | none =>
        simp only [runPass2, hp, he]
        refine List.Forall₂.cons ⟨rfl, by simp [hp], ?_⟩ ih
        intro rs hrs
        rw [hp] at hrs
        cases hrs
        exact ⟨(updRefs m refs).1, rfl, updRefs_frame m refs⟩

lemma runPass3_frame (m : List (String × String))
    (cats : List Category) :
    List.Forall₂ (fun c c' => c'.rest = c.rest)
      cats (runPass3 m cats).1 := by
  induction cats with
  | nil => simp [runPass3]
  | cons c rest ih =>
    cases hv : dictGet m c.activityId with
    | none =>
      simp only [runPass3, hv]
      exact List.Forall₂.cons rfl
        (List.forall₂_same.mpr (fun x _ => rfl))
    | some nid =>
      simp only [runPass3, hv]
      exact List.Forall₂.cons rfl ih

/-! ### Lemmas about the wait loop -/

lemma waitLoop_found (check : Nat → CheckResult) (interval maxWait : Nat)
    (hi : 0 < interval) :
    ∀ (k t n : Nat), (∀ i < k, check (n + i) = .notFound) →
      check (n + k) = .found → t + k * interval < maxWait →
      waitLoop check interval maxWait t n =
        (n + k + 1, .found (t + k * interval)) := by
  intro k
  induction k with
  | zero =>
    intro t n _ hfound ht
    simp only [Nat.add_zero] at hfound
    simp only [Nat.zero_mul, Nat.add_zero] at ht ⊢
    rw [waitLoop, dif_pos ⟨hi, ht⟩]
    simp [hfound]
  | succ k ih =>
    intro t n hmiss hfound ht
    have ht0 : t < maxWait :=
      Nat.lt_of_le_of_lt (Nat.le_add_right t _) ht
    rw [waitLoop, dif_pos ⟨hi, ht0⟩]
    have h0 : check n = .notFound := by
      have := hmiss 0 (Nat.succ_pos k)
      simpa using this
    simp only [h0]
    have hmiss' : ∀ i < k, check (n + 1 + i) = .notFound := by
      intro i hik
      have := hmiss (i + 1) (by omega)
      simpa [Nat.add_assoc, Nat.add_comm 1 i] using this
    have hfound' : check (n + 1 + k) = .found := by
      have : n + 1 + k = n + (k + 1) := by omega
      rw [this]; exact hfound
    have ht' : t + interval + k * interval < maxWait := by
      have : t + interval + k * interval = t + (k + 1) * interval := by
        rw [Nat.succ_mul]; ring
      rw [this]; exact ht
    rw [ih (t + interval) (n + 1) hmiss' hfound' ht']
    have e1 : n + 1 + k + 1 = n + (k + 1) + 1 := by omega
    have e2 : t + interval + k * interval = t + (k + 1) * interval := by
      rw [Nat.succ_mul]; ring
    rw [e1, e2]

lemma waitLoop_fatal (check : Nat → CheckResult) (interval maxWait : Nat)
    (hi : 0 < interval) :
    ∀ (k t n : Nat), (∀ i < k, check (n + i) = .notFound) →
      check (n + k) = .otherError → t + k * interval < maxWait →
      waitLoop check interval maxWait t n = (n + k + 1, .fatal) := by
  intro k
  induction k with
  | zero =>
    intro t n _ herr ht
    simp only [Nat.add_zero] at herr
    simp only [Nat.zero_mul, Nat.add_zero] at ht
    rw [waitLoop, dif_pos ⟨hi, ht⟩]
    simp [herr]
  | succ k ih =>
    intro t n hmiss herr ht
    have ht0 : t < maxWait :=
      Nat.lt_of_le_of_lt (Nat.le_add_right t _) ht
    rw [waitLoop, dif_pos ⟨hi, ht0⟩]
    have h0 : check n = .notFound := by
      have := hmiss 0 (Nat.succ_pos k)
      simpa using this
    simp only [h0]
    have hmiss' : ∀ i < k, check (n + 1 + i) = .notFound := by
      intro i hik
      have := hmiss (i + 1) (by omega)
      simpa [Nat.add_assoc, Nat.add_comm 1 i] using this
    have herr' : check (n + 1 + k) = .otherError := by
      have : n + 1 + k = n + (k + 1) := by omega
      rw [this]; exact herr
    have ht' : t + interval + k * interval < maxWait := by
      have : t + interval + k * interval = t + (k + 1) * interval := by
        rw [Nat.succ_mul]; ring
      rw [this]; exact ht
    rw [ih (t + interval) (n + 1) hmiss' herr' ht']
    have e1 : n + 1 + k + 1 = n + (k + 1) + 1 := by omega
    rw [e1]

lemma waitLoop_timeout (check : Nat → CheckResult) (interval maxWait : Nat)
    (hmiss : ∀ i, check i = .notFound) (hi : 0 < interval) :
    ∀ t n, waitLoop check interval maxWait t n =
      (n + (maxWait - t + interval - 1) / interval, .timedOut) := by
  have key : ∀ d t n, maxWait - t = d →
      waitLoop check interval maxWait t n =
        (n + (maxWait - t + interval - 1) / interval, .timedOut) := by
    intro d
    induction d using Nat.strong_induction_on with
    | _ d ih =>
      intro t n hd
      by_cases ht : t < maxWait
      · rw [waitLoop, dif_pos ⟨hi, ht⟩]
        simp only [hmiss n]
        rw [ih (maxWait - (t + interval)) (by omega) (t + interval)
          (n + 1) rfl]
        have harith : (maxWait - (t + interval) + interval - 1) / interval
            + 1 = (maxWait - t + interval - 1) / interval := by
          rcases le_or_lt interval (maxWait - t) with hba | hba
          · have h1 : maxWait - (t + interval) + interval - 1
                = maxWait - t - 1 := by omega
            have h2 : maxWait - t + interval - 1
                = (maxWait - t - 1) + interval := by omega
            rw [h1, h2, Nat.add_div_right _ hi]
          · have h1 : maxWait - (t + interval) + interval - 1
                = interval - 1 := by omega
            have h2 : maxWait - t + interval - 1
                = (maxWait - t - 1) + interval := by omega
            rw [h1, h2, Nat.add_div_right _ hi]
            rw [Nat.div_eq_of_lt (by omega), Nat.div_eq_of_lt (by omega)]
        simp only [Prod.mk.injEq, and_true]
        omega
      · rw [waitLoop, dif_neg (by tauto)]
        have h0 : maxWait - t + interval - 1 = interval - 1 := by omega
        rw [h0, Nat.div_eq_of_lt (by omega)]
        simp
  intro t n
  exact key (maxWait - t) t n rfl

lemma updRefs_none (m : List (String × String)) {refs : List ActRef}
    (h : (updRefs m refs).2 = none) :
    ∀ r ∈ refs, (dictGet m r.activityId).isSome := by
  induction refs with
  | nil => simp
  | cons r rest ih =>
    cases hv : dictGet m r.activityId with
    | none => simp [updRefs, hv] at h
    | some nid =>
      simp only [updRefs, hv] at h
      intro x hx
      rcases List.mem_cons.mp hx with hx | hx
      · subst hx; simp [hv]
      · exact ih h x hx

lemma runPass2_none (m : List (String × String)) {parts : List Participant}
    (h : (runPass2 m parts).2 = none) :
    ∀ p ∈ parts, ∀ r ∈ p.activities.getD [],
      (dictGet m r.activityId).isSome := by
  induction parts with
  | nil => simp
  | cons p rest ih =>
    cases hp : p.activities with
    | none =>
      simp only [runPass2, hp] at h
      intro x hx
      rcases List.mem_cons.mp hx with hx | hx
      · subst hx; simp [hp]
      · exact ih h x hx
    | some refs =>
      cases he : (updRefs m refs).2 with
      | some err => simp [runPass2, hp, he] at h
      | none =>
        simp only [runPass2, hp, he] at h
        intro x hx
        rcases List.mem_cons.mp hx with hx | hx
        · subst hx
          intro r hr
          rw [hp] at hr
          exact updRefs_none m he r (by simpa using hr)
        · exact ih h x hx

lemma runPass3_none (m : List (String × String)) {cats : List Category}
    (h : (runPass3 m cats).2 = none) :
    ∀ c ∈ cats, (dictGet m c.activityId).isSome := by
  induction cats with
  | nil => simp
  | cons c rest ih =>
    cases hv : dictGet m c.activityId with
    | none => simp [runPass3, hv] at h
    | some nid =>
      simp only [runPass3, hv] at h
      intro x hx
      rcases List.mem_cons.mp hx with hx | hx
      · subst hx; simp [hv]
      · exact ih h x hx

lemma dictGet_pass1_perm (ids : Ids) {defs defsB : List ActivityDef}
    (hnd : (defs.map (fun d => d.activityId)).Nodup)
    (hperm : defsB.Perm defs) (k : String) :
    dictGet (pass1Entries ids defsB) k =
      dictGet (pass1Entries ids defs) k := by
  by_cases hex : ∃ d ∈ defs, d.activityId = k
  · obtain ⟨d, hd, hk⟩ := hex
    have hndB : (defsB.map (fun d => d.activityId)).Nodup :=
      ((hperm.map _).nodup_iff).mpr hnd
    have h1 := dictGet_pass1_nodup ids hnd hd
    have h2 := dictGet_pass1_nodup ids hndB (hperm.mem_iff.mpr hd)
    rw [hk] at h1 h2
    rw [h1, h2]
  · push_neg at hex
    rw [(dictGet_pass1_none_iff ids defs k).mpr hex,
      (dictGet_pass1_none_iff ids defsB k).mpr
        (fun d hd => hex d (hperm.subset hd))]

/-! ### The claims -/

/-- C5: for every `k` with `k * poll_interval < max_wait`, if the store
reports "not found" on the first `k` existence checks and "found" on the
next one, the wait-then-publish logic performs exactly `k+1` existence
checks, then performs exactly one publish (`put_object`) call, raising
nothing. -/
theorem C5_found_after_k_checks (check : Nat → CheckResult)
    (interval maxWait k : Nat) (hi : 0 < interval)
    (hk : k * interval < maxWait)
    (hmiss : ∀ i < k, check i = .notFound)
    (hfound : check k = .found) :
    awaitThenPublish check interval maxWait = ⟨k + 1, 1, false⟩ := by
  have hw := waitLoop_found check interval maxWait hi k 0 0
    (by simpa using hmiss) (by simpa using hfound) (by simpa using hk)
  simp only [Nat.zero_add] at hw
  simp [awaitThenPublish, hw]

/-- C5 witness: with interval 10 and deadline 300, a store that misses
twice then hits yields 3 checks and one publish. -/
theorem C5_found_after_k_checks_witness :
    (0 < 10 ∧ 2 * 10 < 300 ∧
      (∀ i < 2, (fun i => if i < 2 then CheckResult.notFound
        else CheckResult.found) i = CheckResult.notFound) ∧
      (fun i => if i < 2 then CheckResult.notFound
        else CheckResult.found) 2 = CheckResult.found) ∧
    awaitThenPublish (fun i => if i < 2 then CheckResult.notFound
      else CheckResult.found) 10 300 = ⟨3, 1, false⟩ :=
  ⟨⟨by decide, by decide, by decide, by decide⟩,
    C5_found_after_k_checks _ 10 300 2 (by decide) (by decide)
      (by decide) (by decide)⟩

/-- C6: if every existence check reports "not found", the
wait-then-publish logic performs exactly `ceil(max_wait / poll_interval)`
existence checks (here `(maxWait + interval - 1) / interval` in natural
division), then performs exactly one publish on the timeout path, and the
timeout raises nothing. -/
theorem C6_timeout_path (check : Nat → CheckResult)
    (interval maxWait : Nat) (hi : 0 < interval)
    (hmiss : ∀ i, check i = .notFound) :
    awaitThenPublish check interval maxWait =
      ⟨(maxWait + interval - 1) / interval, 1, false⟩ := by
  have hw := waitLoop_timeout check interval maxWait hmiss hi 0 0
  simp only [Nat.sub_zero, Nat.zero_add] at hw
  simp [awaitThenPublish, hw]

/-- C6 witness: with interval 10 and deadline 300 and a store that never
reports "found", 30 checks happen and a single publish follows. -/
theorem C6_timeout_path_witness :
    (0 < 10 ∧
      (∀ i : Nat, (fun _ => CheckResult.notFound) i =
        CheckResult.notFound)) ∧
    awaitThenPublish (fun _ => CheckResult.notFound) 10 300 =
      ⟨30, 1, false⟩ :=
  ⟨⟨by decide, fun _ => rfl⟩,
    C6_timeout_path _ 10 300 (by decide) (fun _ => rfl)⟩

/-- C7: if an existence check fails with any error other than "not found"
after `j` misses (the erroring check occurring before the deadline), the
run aborts: the error is re-raised, exactly `j+1` checks occur, and no
publish is performed. -/
theorem C7_fatal_check_aborts (check : Nat → CheckResult)
    (interval maxWait j : Nat) (hi : 0 < interval)
    (hj : j * interval < maxWait)
    (hmiss : ∀ i < j, check i = .notFound)
    (herr : check j = .otherError) :
    awaitThenPublish check interval maxWait = ⟨j + 1, 0, true⟩ := by
  have hw := waitLoop_fatal check interval maxWait hi j 0 0
    (by simpa using hmiss) (by simpa using herr) (by simpa using hj)
  simp only [Nat.zero_add] at hw
  simp [awaitThenPublish, hw]

/-- C7 witness: a permission-style error on the second check stops the
run after 2 checks with no publish. -/
theorem C7_fatal_check_aborts_witness :
    (0 < 10 ∧ 1 * 10 < 300 ∧
      (∀ i < 1, (fun i => if i < 1 then CheckResult.notFound
        else CheckResult.otherError) i = CheckResult.notFound) ∧
      (fun i => if i < 1 then CheckResult.notFound
        else CheckResult.otherError) 1 = CheckResult.otherError) ∧
    awaitThenPublish (fun i => if i < 1 then CheckResult.notFound
      else CheckResult.otherError) 10 300 = ⟨2, 0, true⟩ :=
  ⟨⟨by decide, by decide, by decide, by decide⟩,
    C7_fatal_check_aborts _ 10 300 1 (by decide) (by decide)
      (by decide) (by decide)⟩

/-- C10: `adjust_ids` modifies only `activity-id` fields.  Every other
part of the document — the `event` and `attrs` remainders, the top-level
remainder, each definition's name and remaining fields, each reference's
and category's remaining fields, and participants lacking an `activities`
key (returned entirely unchanged) — is preserved, on error paths
included. -/
theorem C10_frame_only_activity_ids (ids : Ids) (doc : Doc) :
    (adjust_ids ids doc).1.eventRest = doc.eventRest ∧
    (adjust_ids ids doc).1.attrsRest = doc.attrsRest ∧
    (adjust_ids ids doc).1.rest = doc.rest ∧
    List.Forall₂ (fun d d' => d'.name = d.name ∧ d'.rest = d.rest)
      doc.activities (adjust_ids ids doc).1.activities ∧
    List.Forall₂ (fun p p' => p'.rest = p.rest ∧
        (p.activities = none → p' = p) ∧
        (∀ refs, p.activities = some refs → ∃ refs',
          p'.activities = some refs' ∧
          List.Forall₂ (fun r r' => r'.rest = r.rest) refs refs'))
      doc.participants (adjust_ids ids doc).1.participants ∧
    List.Forall₂ (fun c c' => c'.rest = c.rest)
      doc.categories (adjust_ids ids doc).1.categories := by
  have hf1 := runPass1_frame ids doc.activities none []
  have hf2 := runPass2_frame (runPass1 ids none [] doc.activities).2.1
    doc.participants
  have hf3 := runPass3_frame (runPass1 ids none [] doc.activities).2.1
    doc.categories
  have hrefl2 : List.Forall₂ (fun p p' => p'.rest = p.rest ∧
      (p.activities = none → p' = p) ∧
      (∀ refs, p.activities = some refs → ∃ refs',
        p'.activities = some refs' ∧
        List.Forall₂ (fun r r' => r'.rest = r.rest) refs refs'))
      doc.participants doc.participants :=
    List.forall₂_same.mpr (fun p _ => ⟨rfl, fun _ => rfl,
      fun refs hrefs => ⟨refs, hrefs,
        List.forall₂_same.mpr (fun _ _ => rfl)⟩⟩)
  have hrefl3 : List.Forall₂ (fun c c' => c'.rest = c.rest)
      doc.categories doc.categories :=
    List.forall₂_same.mpr (fun _ _ => rfl)
  simp only [adjust_ids]
  cases h1 : (runPass1 ids none [] doc.activities).2.2 with
  | some err =>
    simp only [h1]
    exact ⟨trivial, trivial, trivial, hf1, hrefl2, hrefl3⟩
  | none =>
    simp only [h1]
    cases h2 : (runPass2 (runPass1 ids none [] doc.activities).2.1
        doc.participants).2 with
    | some err =>
      simp only [h2]
      exact ⟨trivial, trivial, trivial, hf1, hf2, hrefl3⟩
    | none =>
      simp only [h2]
      exact ⟨trivial, trivial, trivial, hf1, hf2, hf3⟩

/-- C1: for documents in which every definition carries one of the four
fixed names, exactly one definition per name, and every participant and
category reference equals some definition's original identifier,
`adjust_ids` succeeds and produces a document in which every definition's
`activity-id` is the new identifier assigned to that definition's name,
and every participant and category reference equals the new identifier
assigned to the name of a definition whose original identifier the
reference carried. -/
theorem C1_referential_integrity (ids : Ids) (doc : Doc)
    (hn : namesFixed doc) (hone : oneDefPerName doc)
    (hp : participantRefsResolve doc) (hc : categoryRefsResolve doc) :
    (adjust_ids ids doc).2 = none ∧
    List.Forall₂ (fun d d' =>
        d'.name = d.name ∧ d'.activityId = specNewId ids d.name)
      doc.activities (adjust_ids ids doc).1.activities ∧
    List.Forall₂ (fun p p' =>
        (p.activities = none → p' = p) ∧
        ∀ refs, p.activities = some refs → ∃ refs',
          p'.activities = some refs' ∧
          List.Forall₂ (fun r r' => ∃ d ∈ doc.activities,
              d.activityId = r.activityId ∧
              r'.activityId = specNewId ids d.name)
            refs refs')
      doc.participants (adjust_ids ids doc).1.participants ∧
    List.Forall₂ (fun c c' => ∃ d ∈ doc.activities,
        d.activityId = c.activityId ∧
        c'.activityId = specNewId ids d.name)
      doc.categories (adjust_ids ids doc).1.categories := by
  have hok := adjust_ids_ok ids hn hp hc
  rw [hok]
  refine ⟨rfl, ?_, ?_, ?_⟩
  · simp only [List.forall₂_map_right_iff]
    exact List.forall₂_same.mpr (fun d _ => ⟨rfl, rfl⟩)
  · simp only [List.forall₂_map_right_iff]
    refine List.forall₂_same.mpr (fun p hpmem => ⟨?_, ?_⟩)
    · intro hnone; simp [updPart, hnone]
    · intro refs hrefs
      refine ⟨refs.map (updRef (pass1Entries ids doc.activities)),
        by simp [updPart, hrefs], ?_⟩
      simp only [List.forall₂_map_right_iff]
      refine List.forall₂_same.mpr (fun r hr => ?_)
      obtain ⟨d, hd, hk, hv⟩ := dictGet_pass1_mem ids
        (hp p hpmem r (by simp [hrefs, hr]))
      exact ⟨d, hd, hk, by simp [updRef, hv]⟩
  · simp only [List.forall₂_map_right_iff]
    refine List.forall₂_same.mpr (fun c hcmem => ?_)
    obtain ⟨d, hd, hk, hv⟩ := dictGet_pass1_mem ids (hc c hcmem)
    exact ⟨d, hd, hk, by simp [updCat, hv]⟩

/-- C1 witness: the end-to-end scenario document satisfies the
hypotheses, and the theorem applies to it. -/
theorem C1_referential_integrity_witness :
    (namesFixed docA ∧ oneDefPerName docA ∧
      participantRefsResolve docA ∧ categoryRefsResolve docA) ∧
    ((adjust_ids idsA docA).2 = none ∧
    List.Forall₂ (fun d d' =>
        d'.name = d.name ∧ d'.activityId = specNewId idsA d.name)
      docA.activities (adjust_ids idsA docA).1.activities ∧
    List.Forall₂ (fun p p' =>
        (p.activities = none → p' = p) ∧
        ∀ refs, p.activities = some refs → ∃ refs',
          p'.activities = some refs' ∧
          List.Forall₂ (fun r r' => ∃ d ∈ docA.activities,
              d.activityId = r.activityId ∧
              r'.activityId = specNewId idsA d.name)
            refs refs')
      docA.participants (adjust_ids idsA docA).1.participants ∧
    List.Forall₂ (fun c c' => ∃ d ∈ docA.activities,
        d.activityId = c.activityId ∧
        c'.activityId = specNewId idsA d.name)
      docA.categories (adjust_ids idsA docA).1.categories) :=
  ⟨⟨by decide, by decide, by decide, by decide⟩,
    C1_referential_integrity idsA docA (by decide) (by decide)
      (by decide) (by decide)⟩

/-- C9: for a document whose definitions all carry fixed names, with
pairwise distinct original identifiers and resolving references, in which
some fixed name `nm` appears on two or more definitions, `adjust_ids`
does not fail, assigns every definition named `nm` the identical new
identifier for that name, and its `activity_id_map` sends each of their
(distinct) original identifiers to that one new identifier. -/
theorem C9_duplicate_names_share_id (ids : Ids) (doc : Doc) (nm : String)
    (hn : namesFixed doc)
    (hnd : (doc.activities.map (fun d => d.activityId)).Nodup)
    (hp : participantRefsResolve doc) (hc : categoryRefsResolve doc)
    (hnm : nm ∈ fixedNames)
    (hdup : 2 ≤ (doc.activities.filter (fun d => d.name = nm)).length) :
    (adjust_ids ids doc).2 = none ∧
    List.Forall₂ (fun d d' => d.name = nm →
        d'.activityId = specNewId ids nm)
      doc.activities (adjust_ids ids doc).1.activities ∧
    ∀ d ∈ doc.activities, d.name = nm →
      dictGet (pass1Entries ids doc.activities) d.activityId =
        some (specNewId ids nm) := by
  rw [adjust_ids_ok ids hn hp hc]
  refine ⟨rfl, ?_, ?_⟩
  · simp only [List.forall₂_map_right_iff]
    exact List.forall₂_same.mpr (fun d _ hdnm => by simp [updDef, hdnm])
  · intro d hd hdnm
    rw [dictGet_pass1_nodup ids hnd hd, hdnm]

/-- C9 witness: the two-Kata document satisfies the hypotheses and the
theorem applies to it. -/
theorem C9_duplicate_names_share_id_witness :
    (namesFixed docDup ∧
      (docDup.activities.map (fun d => d.activityId)).Nodup ∧
      participantRefsResolve docDup ∧ categoryRefsResolve docDup ∧
      "Kata" ∈ fixedNames ∧
      2 ≤ (docDup.activities.filter (fun d => d.name = "Kata")).length) ∧
    ((adjust_ids idsA docDup).2 = none ∧
    List.Forall₂ (fun d d' => d.name = "Kata" →
        d'.activityId = specNewId idsA "Kata")
      docDup.activities (adjust_ids idsA docDup).1.activities ∧
    ∀ d ∈ docDup.activities, d.name = "Kata" →
      dictGet (pass1Entries idsA docDup.activities) d.activityId =
        some (specNewId idsA "Kata")) :=
  ⟨⟨by decide, by decide, by decide, by decide, by decide, by decide⟩,
    C9_duplicate_names_share_id idsA docDup "Kata" (by decide) (by decide)
      (by decide) (by decide) (by decide) (by decide)⟩

/-- C4: `adjust_ids` is a pure function of its input (so two runs on the
same input agree definitionally), and on well-formed documents the result
does not depend on the iteration order within any of the three passes:
for any reordering of the definitions, participants and categories lists,
each element's output is the SAME per-element function of that element —
computed from the iteration-order-independent lookup built by pass 1 —
so the rewritten lists are the corresponding permutations of the original
output. -/
theorem C4_iteration_order_independent (ids : Ids) (doc doc2 : Doc)
    (hn : namesFixed doc)
    (hnd : (doc.activities.map (fun d => d.activityId)).Nodup)
    (hp : participantRefsResolve doc) (hc : categoryRefsResolve doc)
    (ha : doc2.activities.Perm doc.activities)
    (hpp : doc2.participants.Perm doc.participants)
    (hcc : doc2.categories.Perm doc.categories) :
    (adjust_ids ids doc).2 = none ∧ (adjust_ids ids doc2).2 = none ∧
    (adjust_ids ids doc2).1.activities =
      doc2.activities.map (updDef ids) ∧
    (adjust_ids ids doc2).1.participants =
      doc2.participants.map (updPart (pass1Entries ids doc.activities)) ∧
    (adjust_ids ids doc2).1.categories =
      doc2.categories.map (updCat (pass1Entries ids doc.activities)) ∧
    (adjust_ids ids doc2).1.activities.Perm
      (adjust_ids ids doc).1.activities ∧
    (adjust_ids ids doc2).1.participants.Perm
      (adjust_ids ids doc).1.participants ∧
    (adjust_ids ids doc2).1.categories.Perm
      (adjust_ids ids doc).1.categories := by
  have hn2 : namesFixed doc2 := fun d hd => hn d (ha.subset hd)
  have hp2 : participantRefsResolve doc2 := by
    intro p hpmem r hr
    obtain ⟨d, hdmem, hdk⟩ := hp p (hpp.subset hpmem) r hr
    exact ⟨d, ha.mem_iff.mpr hdmem, hdk⟩
  have hc2 : categoryRefsResolve doc2 := by
    intro c hcmem
    obtain ⟨d, hdmem, hdk⟩ := hc c (hcc.subset hcmem)
    exact ⟨d, ha.mem_iff.mpr hdmem, hdk⟩
  have hlook : ∀ k, dictGet (pass1Entries ids doc2.activities) k =
      dictGet (pass1Entries ids doc.activities) k :=
    fun k => dictGet_pass1_perm ids hnd ha k
  have hupdr : updRef (pass1Entries ids doc2.activities) =
      updRef (pass1Entries ids doc.activities) := by
    funext r; simp [updRef, hlook]
  have hupdp : updPart (pass1Entries ids doc2.activities) =
      updPart (pass1Entries ids doc.activities) := by
    funext p
    cases hpa : p.activities with
    | none => simp [updPart, hpa]
    | some refs => simp [updPart, hpa, hupdr]
  have hupdc : updCat (pass1Entries ids doc2.activities) =
      updCat (pass1Entries ids doc.activities) := by
    funext c; simp [updCat, hlook]
  rw [adjust_ids_ok ids hn hp hc, adjust_ids_ok ids hn2 hp2 hc2]
  refine ⟨rfl, rfl, rfl, by rw [hupdp], by rw [hupdc],
    ha.map _, ?_, ?_⟩
  · rw [hupdp]; exact hpp.map _
  · rw [hupdc]; exact hcc.map _

/-- C4 witness: `docAperm` reorders each list of `docA`; the theorem
applies to the pair. -/
theorem C4_iteration_order_independent_witness :
    (namesFixed docA ∧
      (docA.activities.map (fun d => d.activityId)).Nodup ∧
      participantRefsResolve docA ∧ categoryRefsResolve docA ∧
      docAperm.activities.Perm docA.activities ∧
      docAperm.participants.Perm docA.participants ∧
      docAperm.categories.Perm docA.categories) ∧
    ((adjust_ids idsA docA).2 = none ∧
    (adjust_ids idsA docAperm).2 = none ∧
    (adjust_ids idsA docAperm).1.activities =
      docAperm.activities.map (updDef idsA) ∧
    (adjust_ids idsA docAperm).1.participants =
      docAperm.participants.map
        (updPart (pass1Entries idsA docA.activities)) ∧
    (adjust_ids idsA docAperm).1.categories =
      docAperm.categories.map
        (updCat (pass1Entries idsA docA.activities)) ∧
    (adjust_ids idsA docAperm).1.activities.Perm
      (adjust_ids idsA docA).1.activities ∧
    (adjust_ids idsA docAperm).1.participants.Perm
      (adjust_ids idsA docA).1.participants ∧
    (adjust_ids idsA docAperm).1.categories.Perm
      (adjust_ids idsA docA).1.categories) :=
  ⟨⟨by decide, by decide, by decide, by decide, by decide, by decide,
      by decide⟩,
    C4_iteration_order_independent idsA docA docAperm (by decide)
      (by decide) (by decide) (by decide) (by decide) (by decide)
      (by decide)⟩

lemma commandIdForName_fixed (ids : Ids) {nm : String}
    (h : nm ∈ fixedNames) :
    commandIdForName ids nm = some (specNewId ids nm) := by
  simp only [fixedNames, List.mem_cons, List.not_mem_nil, or_false] at h
  rcases h with h | h | h | h <;> subst h <;>
    simp [commandIdForName, commandActivities, specNewId]

/-- C8: for each definition of a well-formed document (so in particular
for each of the four fixed names), the activity-id embedded in the
outbound command payload for that definition's name equals the
activity-id `adjust_ids` writes into the corresponding definition of the
rewritten document; all identifier-generation steps precede the
command-submission step in program order; and the event identifier
embedded in the command equals the one written into the published
document. -/
theorem C8_command_ids_match_rewrite (ids : Ids) (doc : Doc)
    (eventId : String) (hn : namesFixed doc)
    (hp : participantRefsResolve doc) (hc : categoryRefsResolve doc) :
    List.Forall₂ (fun d d' =>
        commandIdForName ids d.name = some d'.activityId)
      doc.activities (adjust_ids ids doc).1.activities ∧
    (∀ s ∈ idGenSteps,
      scriptOrder.indexOf s < scriptOrder.indexOf Step.submitCommand) ∧
    commandEventId eventId = publishedDocId eventId := by
  refine ⟨?_, by decide, rfl⟩
  rw [adjust_ids_ok ids hn hp hc]
  simp only [List.forall₂_map_right_iff]
  refine List.forall₂_same.mpr (fun d hd => ?_)
  simpa [updDef] using commandIdForName_fixed ids (hn d hd)

/-- C8 witness: the theorem applies to the end-to-end scenario
document. -/
theorem C8_command_ids_match_rewrite_witness :
    (namesFixed docA ∧ participantRefsResolve docA ∧
      categoryRefsResolve docA) ∧
    (List.Forall₂ (fun d d' =>
        commandIdForName idsA d.name = some d'.activityId)
      docA.activities (adjust_ids idsA docA).1.activities ∧
    (∀ s ∈ idGenSteps,
      scriptOrder.indexOf s < scriptOrder.indexOf Step.submitCommand) ∧
    commandEventId "E1" = publishedDocId "E1") :=
  ⟨⟨by decide, by decide, by decide⟩,
    C8_command_ids_match_rewrite idsA docA "E1" (by decide) (by decide)
      (by decide)⟩

/-- C2 is refuted by the code: the name branches of `adjust_ids` are
plain sequential `if` statements with no fallback, so a definition whose
name is none of the four fixed ones is silently assigned the stale
`new_activity_id` of the previous iteration (here the "Archery"
definition receives the Kata identifier "N1" and no error is raised);
when such a definition comes first, the read of the unbound local raises
`UnboundLocalError` — in neither case the `MissingMappingError` the claim
requires. -/
theorem C2_missing_name_stale_assignment :
    (adjust_ids idsA docStale =
      ({ activities := [⟨"N1", "Kata", "d1"⟩, ⟨"N1", "Archery", "d2"⟩],
         eventRest := "ev", participants := [], categories := [],
         attrsRest := "at", rest := "tp" }, none)) ∧
    (adjust_ids idsA docUnbound).2 = some .unboundLocal := by
  exact ⟨by decide, by decide⟩

/-- C3 counterexample: on a document whose participant references the
unknown identifier "X", `adjust_ids` does fail with the `KeyError`
(the spec's UnresolvedReferenceError), but the document the caller
observes after the failure is NOT the input document — pass 1 has
already overwritten the definition identifiers — refuting the claim's
"no partial mutation observable to the caller". -/
theorem C3_partial_mutation_counterexample :
    (adjust_ids idsA docDangling).2 = some (.keyError "X") ∧
    (adjust_ids idsA docDangling).1 ≠ docDangling := by
  exact ⟨by decide, by decide⟩

/-- C3 amended: on a document with fixed definition names in which some
participant or category reference matches no definition's original
identifier, `adjust_ids` fails with a `KeyError` carrying such a dangling
identifier — but the failure is observed only after pass 1 has completed,
so the caller sees every definition's `activity-id` already rewritten
(partial mutation is observable; untouched are only the entries at and
after the failing reference site). -/
theorem C3_unresolved_reference_fails (ids : Ids) (doc : Doc)
    (hn : namesFixed doc)
    (hd : (∃ p ∈ doc.participants, ∃ r ∈ p.activities.getD [],
        ∀ d ∈ doc.activities, d.activityId ≠ r.activityId) ∨
      (∃ c ∈ doc.categories,
        ∀ d ∈ doc.activities, d.activityId ≠ c.activityId)) :
    (∃ k, (adjust_ids ids doc).2 = some (.keyError k) ∧
      ∀ d ∈ doc.activities, d.activityId ≠ k) ∧
    (adjust_ids ids doc).1.activities =
      doc.activities.map (updDef ids) := by
  have h1 := pass1Map_eq ids hn
  simp only [adjust_ids, h1]
  cases h2 : (runPass2 (pass1Entries ids doc.activities)
      doc.participants).2 with
  | some e =>
    obtain ⟨k, hk, hnone, _⟩ :=
      runPass2_err (pass1Entries ids doc.activities) h2
    subst hk
    exact ⟨⟨k, rfl,
      (dictGet_pass1_none_iff ids doc.activities k).mp hnone⟩, rfl⟩
  | none =>
    rcases hd with ⟨p, hpmem, r, hr, hdang⟩ | ⟨c, hcmem, hdang⟩
    · exfalso
      have hsome := runPass2_none (pass1Entries ids doc.activities)
        h2 p hpmem r hr
      rw [(dictGet_pass1_none_iff ids doc.activities
        r.activityId).mpr hdang] at hsome
      simp at hsome
    · cases h3 : (runPass3 (pass1Entries ids doc.activities)
          doc.categories).2 with
      | some e =>
        obtain ⟨k, hk, hnone, _⟩ :=
          runPass3_err (pass1Entries ids doc.activities) h3
        subst hk
        exact ⟨⟨k, by simp [h3],
          (dictGet_pass1_none_iff ids doc.activities k).mp hnone⟩, rfl⟩
      | none =>
        exfalso
        have hsome := runPass3_none (pass1Entries ids doc.activities)
          h3 c hcmem
        rw [(dictGet_pass1_none_iff ids doc.activities
          c.activityId).mpr hdang] at hsome
        simp at hsome

/-- C3 witness: the amended theorem applies to the dangling-reference
document. -/
theorem C3_unresolved_reference_fails_witness :
    (namesFixed docDangling ∧
      ((∃ p ∈ docDangling.participants,
          ∃ r ∈ p.activities.getD [],
          ∀ d ∈ docDangling.activities,
            d.activityId ≠ r.activityId) ∨
        (∃ c ∈ docDangling.categories,
          ∀ d ∈ docDangling.activities,
            d.activityId ≠ c.activityId))) ∧
    ((∃ k, (adjust_ids idsA docDangling).2 = some (.keyError k) ∧
      ∀ d ∈ docDangling.activities, d.activityId ≠ k) ∧
    (adjust_ids idsA docDangling).1.activities =
      docDangling.activities.map (updDef idsA)) :=
  ⟨⟨by decide, by decide⟩,
    C3_unresolved_reference_fails idsA docDangling (by decide)
      (by decide)⟩

end Run
